import Mathlib

/-!
Verification of the Game of Life engine in `src/main.cpp`
(repository lacouth/cpp_game_of_life).

The C++ program is shallowly embedded: the board is a list of rows of
cells, exactly mirroring `std::vector<std::vector<Cell>>`; machine
integers are modelled by `Nat` and `Int` (all quantities involved stay
far below the 32-bit and 64-bit bounds in the regions the claims talk
about, so no explicit wrap-around modelling is needed); the random
number draws of the seeding routine are made explicit as a list of
drawn coordinate pairs; the driver loop of `main` is embedded as a
recursion on the remaining number of generations
(`max_generations - generations`, the loop variant of the while loop).
-/

/-- Possible cell states in the game (enum class Cell in main.cpp). -/
inductive Cell : Type where
  | dead : Cell
  | alive : Cell
deriving DecidableEq, Repr

/-- A row is a vector of cells (typedef Row in main.cpp). -/
abbrev Row : Type := List Cell

/-- A board is a vector of rows (typedef Board in main.cpp). -/
abbrev Board : Type := List (List Cell)

/-- Game constant defining underpopulation (MIN_NEIGHBOURS in main.cpp). -/
def MIN_NEIGHBOURS : Nat := 2

/-- Game constant defining overpopulation (MAX_NEIGHBOURS in main.cpp). -/
def MAX_NEIGHBOURS : Nat := 3

/-- Reading `board[i][j]`; out-of-range reads (which would be undefined
behaviour in C++ and are proved never to happen for the accesses the
program makes) default to `Cell.dead`. -/
def getCell (board : Board) (i j : Nat) : Cell :=
  (board.getD i []).getD j Cell.dead

/-- board_factory from main.cpp: `Board(size, Row(size, initial_value))`,
a size times size grid filled with initial_value. -/
def board_factory (size : Nat) (initial_value : Cell := Cell.dead) : Board :=
  List.replicate size (List.replicate size initial_value)

/-- The single store `board[x][y] = Cell.alive` performed in each
iteration of the loop of generates_board_initial_state. -/
def setAlive (board : Board) (pick : Nat × Nat) : Board :=
  board.set pick.1 ((board.getD pick.1 []).set pick.2 Cell.alive)

/-- generates_board_initial_state from main.cpp. The `number_of_cells`
draws of the Mersenne twister `random_number(rng), random_number(rng)`
are made explicit as the list `picks` of drawn coordinate pairs (the
distribution draws each component from `0 .. board.size() - 1`); the
loop sets each picked cell alive in order. -/
def generates_board_initial_state (board : Board) (picks : List (Nat × Nat)) : Board :=
  picks.foldl setAlive board

/-- One iteration of the loop body of neighbour_position in main.cpp:
`new_coords[k] = positions[k] + coord[k]`, then values below zero are
replaced by `board_size - 1` and values at or above `board_size` by 0. -/
def wrap_component (position : Nat) (delta : Int) (board_size : Nat) : Int :=
  if (position : Int) + delta < 0 ∨ (board_size : Int) ≤ (position : Int) + delta then
    (if (position : Int) + delta < 0 then (board_size : Int) - 1 else 0)
  else (position : Int) + delta

/-- neighbour_position from main.cpp: wraps the row and the column
components independently.  As at the call site in update_board, `coord`
is the relative offset of the neighbour and `positions` the coordinates
of the cell. -/
def neighbour_position (coord : Int × Int) (positions : Nat × Nat) (board_size : Nat) :
    Int × Int :=
  (wrap_component positions.1 coord.1 board_size,
   wrap_component positions.2 coord.2 board_size)

/-- The `neighbourhood` vector of the 8 relative offsets in update_board. -/
def neighbourhood : List (Int × Int) :=
  [(-1, 0), (0, -1), (1, 0), (0, 1), (1, 1), (-1, -1), (-1, 1), (1, -1)]

/-- The neighbour-counting loop of update_board: for each of the 8
offsets, look the wrapped neighbour up in the board and count it when
it is alive. -/
def count_neighbors (board : Board) (i j : Nat) : Nat :=
  neighbourhood.countP (fun neighbor =>
    let pos := neighbour_position neighbor (i, j) board.length
    getCell board pos.1.toNat pos.2.toNat == Cell.alive)

/-- The if/else-if chain of update_board deciding the state written to
`temp_board[i][j]`; the final `Cell.dead` is the value placed there by
`board_factory(board.size())`, which no branch overwrites. -/
def next_cell (current : Cell) (count : Nat) : Cell :=
  if current = Cell.alive ∧ count < MIN_NEIGHBOURS then Cell.dead
  else if current = Cell.alive ∧ MIN_NEIGHBOURS ≤ count ∧ count ≤ MAX_NEIGHBOURS then Cell.alive
  else if current = Cell.alive ∧ MAX_NEIGHBOURS < count then Cell.dead
  else if current = Cell.dead ∧ count = MAX_NEIGHBOURS then Cell.alive
  else Cell.dead

/-- update_board from main.cpp: builds the fresh `temp_board` whose cell
`(i, j)` is `next_cell` of the old cell and its neighbour count, for
`i, j` ranging over `0 .. board.size() - 1`. -/
def update_board (board : Board) : Board :=
  (List.range board.length).map (fun i =>
    (List.range board.length).map (fun j =>
      next_cell (getCell board i j) (count_neighbors board i j)))

/-- is_everybody_dead from main.cpp: scans the board and returns false
exactly when some cell is alive. -/
def is_everybody_dead (board : Board) : Bool :=
  !(board.any (fun row => row.any (fun cell => cell == Cell.alive)))

/-- The while loop of main, embedded structurally: `remaining` is the
loop variant `max_generations - generations`.  The loop runs while the
board is not all dead and the generation counter is below the cap,
updating the board and incrementing the counter; it returns the final
board and counter. -/
def main_loop (board : Board) (generations remaining : Nat) : Board × Nat :=
  match remaining with
  | 0 => (board, generations)
  | Nat.succ r =>
      if is_everybody_dead board then (board, generations)
      else main_loop (update_board board) (generations + 1) r

/-- The simulation part of main: start at generation 0 and run the loop
with cap `max_generations`. -/
def run_game (board : Board) (max_generations : Nat) : Board × Nat :=
  main_loop board 0 max_generations

/-- The report printed after the loop of main: GAME OVER when the final
generation counter is still below the cap, otherwise the counter
followed by " generations". -/
def final_report (board : Board) (max_generations : Nat) : String :=
  if (run_game board max_generations).2 < max_generations then "GAME OVER - No Cells Alive"
  else toString (run_game board max_generations).2 ++ " generations"

/-- Number of alive cells of a board. -/
def countAlive (board : Board) : Nat :=
  (board.map (fun row => row.countP (fun cell => cell == Cell.alive))).sum

/-- The square board of side n whose cell (i, j) is f i j. -/
def boardOfFun (n : Nat) (f : Nat → Nat → Cell) : Board :=
  (List.range n).map (fun i => (List.range n).map (fun j => f i j))

/-- Board of side n whose only live cells form the horizontal blinker
(r, c-1), (r, c), (r, c+1). -/
def hBlinker (n r c : Nat) : Board :=
  boardOfFun n (fun i j => if i = r ∧ (j = c - 1 ∨ j = c ∨ j = c + 1) then Cell.alive else Cell.dead)

/-- Board of side n whose only live cells form the vertical blinker
(r-1, c), (r, c), (r+1, c). -/
def vBlinker (n r c : Nat) : Board :=
  boardOfFun n (fun i j => if j = c ∧ (i = r - 1 ∨ i = r ∨ i = r + 1) then Cell.alive else Cell.dead)

/-- The B3/S23 rule table, written down exactly as the five documented
rows of the specification table (spec side, for claims C1 and C3). -/
def b3s23_table (current : Cell) (n : Nat) : Cell :=
  match current with
  | Cell.alive => if n < 2 then Cell.dead else if n = 2 ∨ n = 3 then Cell.alive else Cell.dead
  | Cell.dead => if n = 3 then Cell.alive else Cell.dead

/-- The simplified form of the rule from the specification: next state
is alive iff n = 3, or (current alive and n = 2) (spec side, claim C3). -/
def next_cell_simplified (current : Cell) (n : Nat) : Cell :=
  if n = 3 ∨ (current = Cell.alive ∧ n = 2) then Cell.alive else Cell.dead

/-- The creation operation as the specification describes it (spec side,
claim C4): fails with an InvalidArgument condition exactly on size at
most 0, otherwise returns the filled square grid. -/
def specCreate (size : Int) (initial_value : Cell) : Except String Board :=
  if size ≤ 0 then Except.error "InvalidArgument"
  else Except.ok (board_factory size.toNat initial_value)

/-! ### Basic lemmas about the embedding -/

lemma Cell.ne_alive_iff (c : Cell) : c ≠ Cell.alive ↔ c = Cell.dead := by
  cases c <;> simp

lemma Cell.dead_or_alive (c : Cell) : c = Cell.dead ∨ c = Cell.alive := by
  cases c <;> simp

lemma length_boardOfFun (n : Nat) (f : Nat → Nat → Cell) : (boardOfFun n f).length = n := by
  simp [boardOfFun]

lemma getCell_boardOfFun (n : Nat) (f : Nat → Nat → Cell) (i j : Nat)
    (hi : i < n) (hj : j < n) : getCell (boardOfFun n f) i j = f i j := by
  simp [getCell, boardOfFun, List.getD_eq_getElem?_getD, List.getElem?_map,
    List.getElem?_range, hi, hj]

lemma wrap_component_bounds (p : Nat) (d : Int) (n : Nat) (hn : 1 ≤ n) :
    0 ≤ wrap_component p d n ∧ wrap_component p d n < n := by
  unfold wrap_component
  split_ifs <;> omega

lemma wrap_component_toNat_lt (p : Nat) (d : Int) (n : Nat) (hn : 1 ≤ n) :
    (wrap_component p d n).toNat < n := by
  have h := wrap_component_bounds p d n hn
  omega

lemma wrap_component_toNat_eq (p : Nat) (d : Int) (n t : Nat) (_hp : p < n)
    (_hd : d = -1 ∨ d = 0 ∨ d = 1) (h1 : 1 ≤ t) (h2 : t + 2 ≤ n) :
    ((wrap_component p d n).toNat = t) ↔ ((p : Int) + d = (t : Int)) := by
  unfold wrap_component
  split_ifs <;> omega

lemma update_board_eq_boardOfFun (b : Board) :
    update_board b =
      boardOfFun b.length (fun i j => next_cell (getCell b i j) (count_neighbors b i j)) := rfl

lemma getCell_update_board (b : Board) (i j : Nat) (hi : i < b.length) (hj : j < b.length) :
    getCell (update_board b) i j = next_cell (getCell b i j) (count_neighbors b i j) := by
  rw [update_board_eq_boardOfFun, getCell_boardOfFun _ _ _ _ hi hj]

lemma next_cell_eq_table (s : Cell) (n : Nat) : next_cell s n = b3s23_table s n := by
  cases s <;>
    simp [next_cell, b3s23_table, MIN_NEIGHBOURS, MAX_NEIGHBOURS] <;>
    split_ifs <;> first | rfl | (exfalso; omega)

/-! ### Claim theorems -/

/-- C1: one transition (update_board) sets the new state of every
in-range coordinate (r, c) according to the B3/S23 table evaluated
against the pre-transition state of (r, c) and the count of alive cells
among its 8 toroidally wrapped neighbours, for every pre-state and
every neighbour count. -/
theorem C1_update_board_follows_rule_table (b : Board) (r c : Nat)
    (hr : r < b.length) (hc : c < b.length) :
    getCell (update_board b) r c = b3s23_table (getCell b r c) (count_neighbors b r c) := by
  rw [getCell_update_board b r c hr hc, next_cell_eq_table]

/-- Witness for C1 at a concrete board and coordinate. -/
theorem C1_update_board_follows_rule_table_witness :
    getCell (update_board (hBlinker 5 2 2)) 2 2 =
      b3s23_table (getCell (hBlinker 5 2 2) 2 2) (count_neighbors (hBlinker 5 2 2) 2 2) :=
  C1_update_board_follows_rule_table (hBlinker 5 2 2) 2 2 (by decide) (by decide)

/-- C3: the four-branch rule of update_board is extensionally equal to
the simplified form (alive iff the count is 3, or the cell is alive and
the count is 2) for every current state and every count from 0 to 8. -/
theorem C3_rule_equals_simplified_form (s : Cell) (n : Nat) (hn : n ≤ 8) :
    next_cell s n = next_cell_simplified s n := by
  cases s <;>
    simp [next_cell, next_cell_simplified, MIN_NEIGHBOURS, MAX_NEIGHBOURS] <;>
    split_ifs <;> first | rfl | (exfalso; omega)

/-- Witness for C3 at a concrete state and count. -/
theorem C3_rule_equals_simplified_form_witness :
    next_cell Cell.alive 2 = next_cell_simplified Cell.alive 2 :=
  C3_rule_equals_simplified_form Cell.alive 2 (by decide)

/-- C9: for every board size at least 1, every in-range coordinate pair
and every relative offset with components -1, 0 or 1 (in particular the
8 offsets of the neighbourhood table), neighbour_position returns a
pair with both components in the half-open range from 0 to the size, so
the grid accesses of the neighbour-counting loop are in bounds. -/
theorem C9_neighbour_position_in_bounds (n i j : Nat) (o : Int × Int)
    (hn : 1 ≤ n) (hi : i < n) (hj : j < n)
    (ho : (o.1 = -1 ∨ o.1 = 0 ∨ o.1 = 1) ∧ (o.2 = -1 ∨ o.2 = 0 ∨ o.2 = 1)) :
    0 ≤ (neighbour_position o (i, j) n).1 ∧ (neighbour_position o (i, j) n).1 < n ∧
    0 ≤ (neighbour_position o (i, j) n).2 ∧ (neighbour_position o (i, j) n).2 < n ∧
    (neighbour_position o (i, j) n).1.toNat < n ∧
    (neighbour_position o (i, j) n).2.toNat < n := by
  have h1 := wrap_component_bounds i o.1 n hn
  have h2 := wrap_component_bounds j o.2 n hn
  unfold neighbour_position
  refine ⟨h1.1, h1.2, h2.1, h2.2, ?_, ?_⟩ <;> simp <;> omega

/-- Witness for C9 at a concrete size, coordinate and offset. -/
theorem C9_neighbour_position_in_bounds_witness :
    0 ≤ (neighbour_position (-1, 1) (0, 0) 1).1 ∧
    (neighbour_position (-1, 1) (0, 0) 1).1 < 1 ∧
    0 ≤ (neighbour_position (-1, 1) (0, 0) 1).2 ∧
    (neighbour_position (-1, 1) (0, 0) 1).2 < 1 ∧
    (neighbour_position (-1, 1) (0, 0) 1).1.toNat < 1 ∧
    (neighbour_position (-1, 1) (0, 0) 1).2.toNat < 1 :=
  C9_neighbour_position_in_bounds 1 0 0 (-1, 1) (by decide) (by decide) (by decide)
    (by constructor <;> decide)

/-- C7: is_everybody_dead returns true iff every cell of the board is
dead; in particular it returns true on a freshly created all-dead
board, and false on any board having an alive cell. -/
theorem C7_is_everybody_dead_iff :
    (∀ b : Board, is_everybody_dead b = true ↔ ∀ row ∈ b, ∀ cell ∈ row, cell = Cell.dead) ∧
    (∀ n : Nat, is_everybody_dead (board_factory n Cell.dead) = true) ∧
    (∀ b : Board, (∃ row ∈ b, ∃ cell ∈ row, cell = Cell.alive) → is_everybody_dead b = false) := by
  have h1 : ∀ b : Board, is_everybody_dead b = true ↔
      ∀ row ∈ b, ∀ cell ∈ row, cell = Cell.dead := by
    intro b
    simp [is_everybody_dead]
    constructor
    · intro h row hrow cell hcell
      rcases Cell.dead_or_alive cell with h0 | h0
      · exact h0
      · subst h0; exact absurd hcell (h row hrow)
    · intro h row hrow hmem
      have := h row hrow Cell.alive hmem
      simp at this
  refine ⟨h1, ?_, ?_⟩
  · intro n
    rw [h1]
    intro row hrow cell hcell
    rw [List.eq_of_mem_replicate hrow] at hcell
    exact List.eq_of_mem_replicate hcell
  · rintro b ⟨row, hrow, cell, hcell, hl⟩
    rw [Bool.eq_false_iff]
    intro hT
    have := (h1 b).mp hT row hrow cell hcell
    simp [this] at hl

/-- Witness for C7, applying the alive-cell part at a concrete board. -/
theorem C7_is_everybody_dead_iff_witness :
    is_everybody_dead [[Cell.dead, Cell.alive]] = false :=
  C7_is_everybody_dead_iff.2.2 [[Cell.dead, Cell.alive]]
    ⟨[Cell.dead, Cell.alive], by decide, Cell.alive, by decide, rfl⟩

/-- C4 counterexample: the claim says creation fails with an
InvalidArgument condition on size 0; board_factory does not fail there,
it returns the empty grid, so it does not refine the specified
creation operation. -/
theorem C4_counterexample_no_failure_on_zero :
    ¬ specCreate 0 Cell.dead = Except.ok (board_factory 0 Cell.dead) := by
  simp [specCreate]

/-- C4 amended: board_factory never fails; on size 0 it returns the
empty grid, and for every positive size it returns a size by size grid
every cell of which equals the initial value. -/
theorem C4_board_factory_total (size : Nat) (v : Cell) :
    board_factory 0 v = [] ∧
    (1 ≤ size → (board_factory size v).length = size ∧
      ∀ row ∈ board_factory size v, row.length = size ∧ ∀ cell ∈ row, cell = v) := by
  refine ⟨by simp [board_factory], fun _ => ⟨by simp [board_factory], ?_⟩⟩
  intro row hrow
  have hr : row = List.replicate size v :=
    List.eq_of_mem_replicate (show row ∈ List.replicate size (List.replicate size v) from hrow)
  subst hr
  exact ⟨by simp, fun cell hcell => List.eq_of_mem_replicate hcell⟩

/-- Witness for C4 at a concrete size and initial value. -/
theorem C4_board_factory_total_witness :
    board_factory 0 Cell.alive = [] ∧
    ((board_factory 2 Cell.alive).length = 2 ∧
      ∀ row ∈ board_factory 2 Cell.alive, row.length = 2 ∧ ∀ cell ∈ row, cell = Cell.alive) :=
  ⟨(C4_board_factory_total 2 Cell.alive).1,
   (C4_board_factory_total 2 Cell.alive).2 (by decide)⟩

lemma emod_eq_of_rep (a v n : Int) (h0 : 0 ≤ v) (h1 : v < n)
    (h2 : a = v ∨ a = v - n ∨ a = v + n) : a % n = v := by
  have hv : v % n = v := Int.emod_eq_of_lt h0 h1
  rcases h2 with h | h | h <;> subst h
  · exact hv
  · rw [show v - n = v + n * (-1) by ring, Int.add_mul_emod_self_left, hv]
  · rw [show v + n = v + n * 1 by ring, Int.add_mul_emod_self_left, hv]

/-- C2: for every board size at least 1, every in-range 1D position and
every delta among -1, 0 and 1, the wrap function returns the position
plus delta modulo the size, mapping a negative raw sum to size minus 1
and a raw sum at least the size to 0; moreover on a board of size 1
every one of the 8 neighbour offsets of the single cell wraps back to
the cell itself, so the single alive cell is counted as its own
neighbour 8 times. -/
theorem C2_wrap_coordinate_is_mod :
    (∀ (n p : Nat) (d : Int), 1 ≤ n → p < n → (d = -1 ∨ d = 0 ∨ d = 1) →
      wrap_component p d n = ((p : Int) + d) % (n : Int) ∧
      ((p : Int) + d < 0 → wrap_component p d n = (n : Int) - 1) ∧
      ((n : Int) ≤ (p : Int) + d → wrap_component p d n = 0)) ∧
    (∀ o ∈ neighbourhood, neighbour_position o (0, 0) 1 = (0, 0)) ∧
    count_neighbors [[Cell.alive]] 0 0 = 8 := by
  refine ⟨?_, by decide, by decide⟩
  intro n p d hn hp hd
  refine ⟨?_, ?_, ?_⟩
  · unfold wrap_component
    split_ifs with h1 h2
    · exact (emod_eq_of_rep _ _ _ (by omega) (by omega) (by omega)).symm
    · exact (emod_eq_of_rep _ _ _ (by omega) (by omega) (by omega)).symm
    · exact (emod_eq_of_rep _ _ _ (by omega) (by omega) (by omega)).symm
  · intro h
    unfold wrap_component
    split_ifs <;> omega
  · intro h
    unfold wrap_component
    split_ifs <;> omega

/-- Witness for C2 at a concrete size, position and delta. -/
theorem C2_wrap_coordinate_is_mod_witness :
    (wrap_component 0 (-1) 3 = ((0 : Int) + (-1)) % (3 : Int) ∧
      (((0 : Nat) : Int) + (-1) < 0 → wrap_component 0 (-1) 3 = (3 : Int) - 1) ∧
      (((3 : Nat) : Int) ≤ ((0 : Nat) : Int) + (-1) → wrap_component 0 (-1) 3 = 0)) ∧
    neighbour_position (-1, -1) (0, 0) 1 = (0, 0) :=
  ⟨C2_wrap_coordinate_is_mod.1 3 0 (-1) (by decide) (by decide) (by decide),
   C2_wrap_coordinate_is_mod.2.1 (-1, -1) (by decide)⟩

/-! ### Lemmas about seeding -/

lemma length_setAlive (b : Board) (p : Nat × Nat) : (setAlive b p).length = b.length := by
  unfold setAlive
  exact List.length_set b p.1 _

lemma setAlive_of_length_le (b : Board) (p : Nat × Nat) (h : b.length ≤ p.1) :
    setAlive b p = b := by
  unfold setAlive
  exact List.set_eq_of_length_le h

lemma getCell_setAlive_of_ne (b : Board) (p : Nat × Nat) (i j : Nat)
    (h : ¬(i = p.1 ∧ j = p.2)) : getCell (setAlive b p) i j = getCell b i j := by
  unfold setAlive getCell
  simp only [List.getD_eq_getElem?_getD]
  rw [List.getElem?_set]
  by_cases h1 : p.1 = i
  · subst h1
    by_cases h2 : p.1 < b.length
    · have hj : p.2 ≠ j := fun hj => h ⟨rfl, hj.symm⟩
      simp [h2, List.getElem?_set_ne hj]
    · simp [h2, List.getElem?_eq_none (Nat.le_of_not_lt h2)]
  · simp [h1]

lemma getCell_setAlive_self (b : Board) (p : Nat × Nat)
    (h1 : p.1 < b.length) (h2 : p.2 < (b.getD p.1 []).length) :
    getCell (setAlive b p) p.1 p.2 = Cell.alive := by
  unfold setAlive getCell
  simp only [List.getD_eq_getElem?_getD]
  rw [List.getElem?_set_self h1, Option.getD_some,
    List.getElem?_set_self (by rwa [List.getD_eq_getElem?_getD] at h2), Option.getD_some]

lemma getCell_setAlive_mono (b : Board) (p : Nat × Nat) (i j : Nat)
    (h : getCell b i j = Cell.alive) : getCell (setAlive b p) i j = Cell.alive := by
  by_cases hp : i = p.1 ∧ j = p.2
  · obtain ⟨hp1, hp2⟩ := hp
    by_cases h1 : p.1 < b.length
    · by_cases h2 : p.2 < (b.getD p.1 []).length
      · rw [hp1, hp2]
        exact getCell_setAlive_self b p h1 h2
      · exfalso
        rw [hp1, hp2, getCell] at h
        rw [List.getD_eq_getElem?_getD (b.getD p.1 []) p.2,
          List.getElem?_eq_none (Nat.le_of_not_lt h2)] at h
        simp at h
    · rw [setAlive_of_length_le b p (Nat.le_of_not_lt h1)]
      exact h
  · rw [getCell_setAlive_of_ne b p i j hp]
    exact h

lemma generates_mono (picks : List (Nat × Nat)) (b : Board) (i j : Nat)
    (h : getCell b i j = Cell.alive) :
    getCell (generates_board_initial_state b picks) i j = Cell.alive := by
  induction picks generalizing b with
  | nil => exact h
  | cons p ps ih => exact ih (setAlive b p) (getCell_setAlive_mono b p i j h)

lemma countP_set_alive_le (row : List Cell) (m : Nat) :
    (row.set m Cell.alive).countP (fun c => c == Cell.alive) ≤
      row.countP (fun c => c == Cell.alive) + 1 := by
  induction row generalizing m with
  | nil => simp
  | cons a t ih =>
    cases m with
    | zero => simp [List.countP_cons]
    | succ m =>
      simp only [List.set_cons_succ, List.countP_cons]
      have := ih m
      omega

lemma countAlive_cons (r : List Cell) (b : Board) :
    countAlive (r :: b) = r.countP (fun c => c == Cell.alive) + countAlive b := by
  simp [countAlive]

lemma countAlive_setAlive_le (b : Board) (p : Nat × Nat) :
    countAlive (setAlive b p) ≤ countAlive b + 1 := by
  obtain ⟨x, y⟩ := p
  show countAlive (b.set x ((b.getD x []).set y Cell.alive)) ≤ countAlive b + 1
  induction b generalizing x with
  | nil => simp
  | cons a t ih =>
    cases x with
    | zero =>
      simp only [List.getD_cons_zero, List.set_cons_zero, countAlive_cons]
      have := countP_set_alive_le a y
      omega
    | succ x =>
      simp only [List.getD_cons_succ, List.set_cons_succ, countAlive_cons]
      have := ih x
      omega

lemma countAlive_generates_le (picks : List (Nat × Nat)) (b : Board) :
    countAlive (generates_board_initial_state b picks) ≤ countAlive b + picks.length := by
  induction picks generalizing b with
  | nil => simp [generates_board_initial_state]
  | cons p ps ih =>
    have h1 := ih (setAlive b p)
    have h2 := countAlive_setAlive_le b p
    simp only [generates_board_initial_state, List.foldl_cons] at h1 ⊢
    simp only [List.length_cons]
    omega

lemma countP_alive_replicate_dead (n : Nat) :
    (List.replicate n Cell.dead).countP (fun c => c == Cell.alive) = 0 := by
  induction n with
  | zero => simp
  | succ n ih => simp [List.replicate, List.countP_cons, ih]

lemma countAlive_factory_dead (n : Nat) : countAlive (board_factory n Cell.dead) = 0 := by
  simp [countAlive, board_factory, List.map_replicate, countP_alive_replicate_dead,
    List.sum_replicate]

lemma countAlive_le_total (b : Board) : countAlive b ≤ (b.map List.length).sum :=
  List.sum_le_sum (fun r _ => List.countP_le_length _)

lemma map_length_setAlive (b : Board) (p : Nat × Nat) :
    (setAlive b p).map List.length = b.map List.length := by
  obtain ⟨x, y⟩ := p
  show (b.set x ((b.getD x []).set y Cell.alive)).map List.length = b.map List.length
  induction b generalizing x with
  | nil => simp
  | cons a t ih =>
    cases x with
    | zero => simp [List.length_set]
    | succ x =>
      simp only [List.getD_cons_succ, List.set_cons_succ, List.map_cons, List.cons.injEq]
      exact ⟨trivial, ih x⟩

lemma map_length_generates (picks : List (Nat × Nat)) (b : Board) :
    (generates_board_initial_state b picks).map List.length = b.map List.length := by
  induction picks generalizing b with
  | nil => rfl
  | cons p ps ih => rw [generates_board_initial_state, List.foldl_cons,
      ← generates_board_initial_state, ih, map_length_setAlive]

lemma countAlive_pos_of_alive (b : Board) (i j : Nat) (h : getCell b i j = Cell.alive) :
    1 ≤ countAlive b := by
  simp only [getCell, List.getD_eq_getElem?_getD] at h
  rcases hrow : b[i]? with _ | row
  · rw [hrow] at h; simp at h
  · rw [hrow, Option.getD_some] at h
    rcases hcell : row[j]? with _ | cell
    · rw [hcell] at h; simp at h
    · rw [hcell, Option.getD_some] at h
      subst h
      have hmem : Cell.alive ∈ row := List.mem_iff_getElem?.mpr ⟨j, hcell⟩
      have hpos : 0 < row.countP (fun c => c == Cell.alive) :=
        List.countP_pos_iff.mpr ⟨Cell.alive, hmem, by simp⟩
      have hle : row.countP (fun c => c == Cell.alive) ≤ countAlive b := by
        refine List.single_le_sum (fun x _ => Nat.zero_le x) _ ?_
        exact List.mem_map_of_mem _ (List.mem_iff_getElem?.mpr ⟨i, hrow⟩)
      omega

/-- C10: seeding only ever turns cells alive: every cell alive before
stays alive, and every cell that changes goes from dead to alive, for
every board, every sequence of random picks and every coordinate. -/
theorem C10_seeding_only_sets_alive (b : Board) (picks : List (Nat × Nat)) (i j : Nat) :
    (getCell b i j = Cell.alive →
      getCell (generates_board_initial_state b picks) i j = Cell.alive) ∧
    (getCell (generates_board_initial_state b picks) i j ≠ getCell b i j →
      getCell b i j = Cell.dead ∧
      getCell (generates_board_initial_state b picks) i j = Cell.alive) := by
  refine ⟨generates_mono picks b i j, ?_⟩
  intro hne
  rcases Cell.dead_or_alive (getCell b i j) with h | h
  · refine ⟨h, ?_⟩
    rcases Cell.dead_or_alive (getCell (generates_board_initial_state b picks) i j) with h2 | h2
    · rw [h, h2] at hne; exact absurd rfl hne
    · exact h2
  · exact absurd ((generates_mono picks b i j h).trans h.symm) hne

/-- Witness for C10 at a concrete board, pick list and coordinate. -/
theorem C10_seeding_only_sets_alive_witness :
    getCell [[Cell.dead]] 0 0 = Cell.dead ∧
    getCell (generates_board_initial_state [[Cell.dead]] [(0, 0)]) 0 0 = Cell.alive :=
  (C10_seeding_only_sets_alive [[Cell.dead]] [(0, 0)] 0 0).2 (by decide)

/-- C5: seeding with zero picks leaves any board unchanged, and on a
fresh all-dead board of positive size n, seeding with a nonempty list
of in-range picks leaves at least 1 and at most min(count, n * n)
distinct alive cells. -/
theorem C5_seed_random_bounds :
    (∀ b : Board, generates_board_initial_state b [] = b) ∧
    (∀ (n : Nat) (picks : List (Nat × Nat)), 1 ≤ n → 1 ≤ picks.length →
      (∀ p ∈ picks, p.1 < n ∧ p.2 < n) →
      1 ≤ countAlive (generates_board_initial_state (board_factory n Cell.dead) picks) ∧
      countAlive (generates_board_initial_state (board_factory n Cell.dead) picks) ≤
        min picks.length (n * n)) := by
  refine ⟨fun b => rfl, ?_⟩
  intro n picks hn hne hin
  constructor
  · rcases picks with _ | ⟨p, ps⟩
    · simp at hne
    · have hp := hin p (by simp)
      have hlen : (board_factory n Cell.dead).length = n := by
        simp [board_factory]
      have hrow : ((board_factory n Cell.dead).getD p.1 []).length = n := by
        simp only [board_factory, List.getD_eq_getElem?_getD, List.getElem?_replicate]
        rw [if_pos (by omega)]
        simp
      have halive : getCell (setAlive (board_factory n Cell.dead) p) p.1 p.2 = Cell.alive :=
        getCell_setAlive_self _ p (by omega) (by omega)
      have := generates_mono ps (setAlive (board_factory n Cell.dead) p) p.1 p.2 halive
      exact countAlive_pos_of_alive _ p.1 p.2 this
  · rw [Nat.le_min]
    constructor
    · have h1 := countAlive_generates_le picks (board_factory n Cell.dead)
      rw [countAlive_factory_dead] at h1
      omega
    · have h2 := countAlive_le_total (generates_board_initial_state (board_factory n Cell.dead) picks)
      rw [map_length_generates] at h2
      have h3 : ((board_factory n Cell.dead).map List.length).sum = n * n := by
        simp [board_factory, List.map_replicate, List.sum_replicate, Nat.smul_one_eq_cast]
      omega

/-- Witness for C5 at a concrete size and pick list. -/
theorem C5_seed_random_bounds_witness :
    generates_board_initial_state [[Cell.alive]] [] = [[Cell.alive]] ∧
    (1 ≤ countAlive (generates_board_initial_state (board_factory 2 Cell.dead)
        [(0, 0), (0, 0), (1, 1)]) ∧
      countAlive (generates_board_initial_state (board_factory 2 Cell.dead)
        [(0, 0), (0, 0), (1, 1)]) ≤ min ([(0, 0), (0, 0), (1, 1)] : List (Nat × Nat)).length (2 * 2)) :=
  ⟨C5_seed_random_bounds.1 [[Cell.alive]],
   C5_seed_random_bounds.2 2 [(0, 0), (0, 0), (1, 1)] (by decide) (by decide) (by decide)⟩

/-! ### Lemmas about the driver loop -/

lemma main_loop_spec (rem : Nat) : ∀ (b : Board) (g : Nat),
    g ≤ (main_loop b g rem).2 ∧ (main_loop b g rem).2 ≤ g + rem ∧
    (main_loop b g rem).1 = update_board^[(main_loop b g rem).2 - g] b ∧
    ((main_loop b g rem).2 < g + rem → is_everybody_dead (main_loop b g rem).1 = true) ∧
    (∀ k, k < (main_loop b g rem).2 - g → is_everybody_dead (update_board^[k] b) = false) := by
  induction rem with
  | zero =>
    intro b g
    simp [main_loop]
  | succ r ih =>
    intro b g
    by_cases hd : is_everybody_dead b
    · simp only [main_loop, if_pos hd]
      refine ⟨Nat.le_refl g, by omega, by simp, fun _ => hd, fun k hk => absurd hk (by omega)⟩
    · simp only [main_loop, if_neg hd]
      obtain ⟨ih1, ih2, ih3, ih4, ih5⟩ := ih (update_board b) (g + 1)
      refine ⟨by omega, by omega, ?_, fun h => ih4 (by omega), ?_⟩
      · rw [ih3]
        have hsub : (main_loop (update_board b) (g + 1) r).2 - g =
            ((main_loop (update_board b) (g + 1) r).2 - (g + 1)) + 1 := by omega
        rw [hsub, Function.iterate_succ_apply]
      · intro k hk
        cases k with
        | zero => simpa using Bool.eq_false_iff.mpr hd
        | succ k =>
          rw [Function.iterate_succ_apply]
          exact ih5 k (by omega)

/-- C8 counterexample: on a 1 by 1 board with a single alive cell and a
generation cap of 1, the loop stops with the board all dead (the
all-dead test of the loop condition is what fails), yet the program
reports "1 generations" and not GAME OVER, because the counter reached
the cap at the same time. -/
theorem C8_counterexample_dead_at_cap :
    is_everybody_dead (run_game [[Cell.alive]] 1).1 = true ∧
    final_report [[Cell.alive]] 1 ≠ "GAME OVER - No Cells Alive" ∧
    final_report [[Cell.alive]] 1 = "1 generations" := by
  refine ⟨by decide, by decide, by decide⟩

/-- C8 amended: the driver loop advances generations until the board is
all dead or the counter reaches the cap (every generation strictly
before the stopping point has a board that is not all dead, and the
final board is the stopping-point iterate of update_board); it reports
GAME OVER exactly when the final counter is strictly below the cap, in
which case the board is all dead, and reports the counter followed by
" generations" exactly when the counter reached the cap, even if the
final board is then also all dead. -/
theorem C8_driver_loop_report (b : Board) (m : Nat) :
    (run_game b m).2 ≤ m ∧
    (run_game b m).1 = update_board^[(run_game b m).2] b ∧
    (∀ k, k < (run_game b m).2 → is_everybody_dead (update_board^[k] b) = false) ∧
    ((run_game b m).2 < m →
      is_everybody_dead (run_game b m).1 = true ∧
      final_report b m = "GAME OVER - No Cells Alive") ∧
    (m ≤ (run_game b m).2 →
      (run_game b m).2 = m ∧ final_report b m = toString m ++ " generations") := by
  obtain ⟨h1, h2, h3, h4, h5⟩ := main_loop_spec m b 0
  have hrun : run_game b m = main_loop b 0 m := rfl
  rw [← hrun] at h1 h2 h3 h4 h5
  simp only [Nat.zero_add, Nat.sub_zero] at h2 h3 h4 h5
  refine ⟨h2, h3, h5, ?_, ?_⟩
  · intro h
    exact ⟨h4 h, by rw [final_report, if_pos h]⟩
  · intro h
    have he : (run_game b m).2 = m := by omega
    refine ⟨he, ?_⟩
    rw [final_report, if_neg (by omega), he]

/-- Witness for C8 at a concrete board and cap. -/
theorem C8_driver_loop_report_witness :
    is_everybody_dead (run_game [[Cell.dead]] 3).1 = true ∧
    final_report [[Cell.dead]] 3 = "GAME OVER - No Cells Alive" :=
  (C8_driver_loop_report [[Cell.dead]] 3).2.2.2.1 (by decide)

/-! ### Lemmas for the blinker claim -/

lemma boardOfFun_congr (n : Nat) (f g : Nat → Nat → Cell)
    (h : ∀ i < n, ∀ j < n, f i j = g i j) : boardOfFun n f = boardOfFun n g := by
  unfold boardOfFun
  apply List.map_congr_left
  intro i hi
  apply List.map_congr_left
  intro j hj
  exact h i (List.mem_range.mp hi) j (List.mem_range.mp hj)

lemma length_hBlinker (n r c : Nat) : (hBlinker n r c).length = n := by
  simp [hBlinker, length_boardOfFun]

lemma length_vBlinker (n r c : Nat) : (vBlinker n r c).length = n := by
  simp [vBlinker, length_boardOfFun]

lemma getCell_hBlinker (n r c x y : Nat) (hx : x < n) (hy : y < n) :
    getCell (hBlinker n r c) x y =
      if x = r ∧ (y = c - 1 ∨ y = c ∨ y = c + 1) then Cell.alive else Cell.dead := by
  unfold hBlinker
  exact getCell_boardOfFun n _ x y hx hy

lemma getCell_vBlinker (n r c x y : Nat) (hx : x < n) (hy : y < n) :
    getCell (vBlinker n r c) x y =
      if y = c ∧ (x = r - 1 ∨ x = r ∨ x = r + 1) then Cell.alive else Cell.dead := by
  unfold vBlinker
  exact getCell_boardOfFun n _ x y hx hy

lemma ite_alive_eq_alive (P : Prop) [Decidable P] :
    ((if P then Cell.alive else Cell.dead) = Cell.alive) ↔ P := by
  split_ifs with h <;> simp [h]

set_option maxHeartbeats 3200000 in
lemma hBlinker_cell_step (n r c i j : Nat) (hn : 5 ≤ n)
    (hr1 : 2 ≤ r) (hr2 : r + 3 ≤ n) (hc1 : 2 ≤ c) (hc2 : c + 3 ≤ n)
    (hi : i < n) (hj : j < n) :
    next_cell (getCell (hBlinker n r c) i j) (count_neighbors (hBlinker n r c) i j) =
      (if j = c ∧ (i = r - 1 ∨ i = r ∨ i = r + 1) then Cell.alive else Cell.dead) := by
  have hget : ∀ d e : Int,
      getCell (hBlinker n r c) (wrap_component i d n).toNat (wrap_component j e n).toNat =
        if (wrap_component i d n).toNat = r ∧
            ((wrap_component j e n).toNat = c - 1 ∨ (wrap_component j e n).toNat = c ∨
              (wrap_component j e n).toNat = c + 1) then Cell.alive else Cell.dead :=
    fun d e => getCell_hBlinker n r c _ _
      (wrap_component_toNat_lt i d n (by omega)) (wrap_component_toNat_lt j e n (by omega))
  have hrow : ∀ d : Int, (d = -1 ∨ d = 0 ∨ d = 1) →
      (((wrap_component i d n).toNat = r) ↔ ((i : Int) + d = (r : Int))) :=
    fun d hd => wrap_component_toNat_eq i d n r (by omega) hd (by omega) (by omega)
  have hcol : ∀ e : Int, (e = -1 ∨ e = 0 ∨ e = 1) → ∀ t : Nat, 1 ≤ t → t + 2 ≤ n →
      (((wrap_component j e n).toNat = t) ↔ ((j : Int) + e = (t : Int))) :=
    fun e he t h1 h2 => wrap_component_toNat_eq j e n t (by omega) he h1 h2
  rw [count_neighbors, getCell_hBlinker n r c i j hi hj, length_hBlinker]
  simp only [neighbourhood, neighbour_position, List.countP_cons, List.countP_nil]
  simp only [hget, beq_iff_eq, ite_alive_eq_alive]
  simp only [hrow (-1) (Or.inl rfl), hrow 0 (Or.inr (Or.inl rfl)), hrow 1 (Or.inr (Or.inr rfl)),
    hcol (-1) (Or.inl rfl) (c - 1) (by omega) (by omega),
    hcol (-1) (Or.inl rfl) c (by omega) (by omega),
    hcol (-1) (Or.inl rfl) (c + 1) (by omega) (by omega),
    hcol 0 (Or.inr (Or.inl rfl)) (c - 1) (by omega) (by omega),
    hcol 0 (Or.inr (Or.inl rfl)) c (by omega) (by omega),
    hcol 0 (Or.inr (Or.inl rfl)) (c + 1) (by omega) (by omega),
    hcol 1 (Or.inr (Or.inr rfl)) (c - 1) (by omega) (by omega),
    hcol 1 (Or.inr (Or.inr rfl)) c (by omega) (by omega),
    hcol 1 (Or.inr (Or.inr rfl)) (c + 1) (by omega) (by omega)]
  split_ifs <;> first | decide | (exfalso; omega)

set_option maxHeartbeats 3200000 in
lemma vBlinker_cell_step (n r c i j : Nat) (hn : 5 ≤ n)
    (hr1 : 2 ≤ r) (hr2 : r + 3 ≤ n) (hc1 : 2 ≤ c) (hc2 : c + 3 ≤ n)
    (hi : i < n) (hj : j < n) :
    next_cell (getCell (vBlinker n r c) i j) (count_neighbors (vBlinker n r c) i j) =
      (if i = r ∧ (j = c - 1 ∨ j = c ∨ j = c + 1) then Cell.alive else Cell.dead) := by
  have hget : ∀ d e : Int,
      getCell (vBlinker n r c) (wrap_component i d n).toNat (wrap_component j e n).toNat =
        if (wrap_component j e n).toNat = c ∧
            ((wrap_component i d n).toNat = r - 1 ∨ (wrap_component i d n).toNat = r ∨
              (wrap_component i d n).toNat = r + 1) then Cell.alive else Cell.dead :=
    fun d e => getCell_vBlinker n r c _ _
      (wrap_component_toNat_lt i d n (by omega)) (wrap_component_toNat_lt j e n (by omega))
  have hrow : ∀ d : Int, (d = -1 ∨ d = 0 ∨ d = 1) → ∀ t : Nat, 1 ≤ t → t + 2 ≤ n →
      (((wrap_component i d n).toNat = t) ↔ ((i : Int) + d = (t : Int))) :=
    fun d hd t h1 h2 => wrap_component_toNat_eq i d n t (by omega) hd h1 h2
  have hcol : ∀ e : Int, (e = -1 ∨ e = 0 ∨ e = 1) →
      (((wrap_component j e n).toNat = c) ↔ ((j : Int) + e = (c : Int))) :=
    fun e he => wrap_component_toNat_eq j e n c (by omega) he (by omega) (by omega)
  rw [count_neighbors, getCell_vBlinker n r c i j hi hj, length_vBlinker]
  simp only [neighbourhood, neighbour_position, List.countP_cons, List.countP_nil]
  simp only [hget, beq_iff_eq, ite_alive_eq_alive]
  simp only [hcol (-1) (Or.inl rfl), hcol 0 (Or.inr (Or.inl rfl)), hcol 1 (Or.inr (Or.inr rfl)),
    hrow (-1) (Or.inl rfl) (r - 1) (by omega) (by omega),
    hrow (-1) (Or.inl rfl) r (by omega) (by omega),
    hrow (-1) (Or.inl rfl) (r + 1) (by omega) (by omega),
    hrow 0 (Or.inr (Or.inl rfl)) (r - 1) (by omega) (by omega),
    hrow 0 (Or.inr (Or.inl rfl)) r (by omega) (by omega),
    hrow 0 (Or.inr (Or.inl rfl)) (r + 1) (by omega) (by omega),
    hrow 1 (Or.inr (Or.inr rfl)) (r - 1) (by omega) (by omega),
    hrow 1 (Or.inr (Or.inr rfl)) r (by omega) (by omega),
    hrow 1 (Or.inr (Or.inr rfl)) (r + 1) (by omega) (by omega)]
  split_ifs <;> first | decide | (exfalso; omega)

/-- C6: on every board of size at least 5 whose only live cells form a
horizontal blinker placed with clearance 2 from every edge, one
transition yields exactly the vertical blinker, the transition applied
to the vertical blinker yields exactly the horizontal one back, and in
particular two transitions restore the original board. -/
theorem C6_blinker_oscillates (n r c : Nat) (hn : 5 ≤ n)
    (hr1 : 2 ≤ r) (hr2 : r + 3 ≤ n) (hc1 : 2 ≤ c) (hc2 : c + 3 ≤ n) :
    update_board (hBlinker n r c) = vBlinker n r c ∧
    update_board (vBlinker n r c) = hBlinker n r c ∧
    update_board (update_board (hBlinker n r c)) = hBlinker n r c := by
  have h1 : update_board (hBlinker n r c) = vBlinker n r c := by
    rw [update_board_eq_boardOfFun, length_hBlinker, vBlinker]
    exact boardOfFun_congr n _ _
      (fun i hi j hj => hBlinker_cell_step n r c i j hn hr1 hr2 hc1 hc2 hi hj)
  have h2 : update_board (vBlinker n r c) = hBlinker n r c := by
    rw [update_board_eq_boardOfFun, length_vBlinker, hBlinker]
    exact boardOfFun_congr n _ _
      (fun i hi j hj => vBlinker_cell_step n r c i j hn hr1 hr2 hc1 hc2 hi hj)
  exact ⟨h1, h2, by rw [h1, h2]⟩

/-- Witness for C6 on the 5 by 5 board with the blinker at its centre. -/
theorem C6_blinker_oscillates_witness :
    update_board (hBlinker 5 2 2) = vBlinker 5 2 2 ∧
    update_board (vBlinker 5 2 2) = hBlinker 5 2 2 ∧
    update_board (update_board (hBlinker 5 2 2)) = hBlinker 5 2 2 :=
  C6_blinker_oscillates 5 2 2 (by decide) (by decide) (by decide) (by decide) (by decide)

